import Mathlib

/-!
Verification development for the Vortex Install Manager
(`src/extensions/mod_management/InstallManager.ts`).

The TypeScript source is shallowly embedded: promise chains become
sequential Lean functions threading explicit success/error values,
external effects (filesystem transfers, notifications, store dispatches,
event emissions) are recorded as entries of explicit event lists or are
driven by oracle functions packaged in environment structures, and the
JavaScript `undefined`/`null` distinction is modelled with `Option` or a
dedicated three-valued type where the code distinguishes the two.
-/

set_option autoImplicit false

namespace Vortex

/-! ## Error model

`VErr` models the error classes the install pipeline distinguishes
(imported from `util/CustomErrors` plus `ArchiveBrokenError` declared in
`InstallManager.ts` and plain `Error` values). -/

inductive VErr where
  | userCanceled
  | processCanceled (msg : String)
  | temporaryError
  | archiveBroken (msg : String)
  | setupError (msg : String)
  | dataInvalid (msg : String)
  | notFound (msg : String)
  | plainError (msg : String)
  deriving DecidableEq, Repr

/-- The `canceled` test of `install`'s top-level catch handler
(`InstallManager.ts:367-373`): `UserCanceled`, `TemporaryError`,
`ProcessCanceled` (the `err === null` / message / stack string checks are
alternative spellings of `UserCanceled` and are folded into it). -/
def isCanceledErr : VErr → Bool
  | .userCanceled => true
  | .processCanceled _ => true
  | .temporaryError => true
  | _ => false

/-- Classification used by the catch handler's `err instanceof SetupError`
branch (`InstallManager.ts:417`). -/
def isSetupErr : VErr → Bool
  | .setupError _ => true
  | _ => false

/-! ## C1: the `install` promise chain as a state machine

`install` (`InstallManager.ts:155-482`) chains stages; each stage that can
reject is given its outcome by a `Script` oracle.  The stages, in the
order of the chain:

* `resolveGame` — `queryGameId` / `will-install-mod` (lines 189-201;
  the `genHash` failure is swallowed by its own `.catch`),
* the `gameId === undefined` check producing `ProcessCanceled`
  (lines 204-206), after which `installContext` is created (line 208),
* `lookupMeta` — `api.lookupModMeta` (line 214),
* `nameAndVersion` — the `checkNameLoop` / `filterModInfo` /
  `userVersionChoice` / `remove-mod` block (lines 221-298),
* assignment of `destinationPath` and `tempPath` (lines 302-305),
* `installInner` (line 306), `modType` (`determineModType`, line 314),
  `processInstr` (`processInstructions`, line 323),
* the `.finally` that invokes `fs.removeAsync(tempPath)` whenever
  `tempPath` was assigned (lines 325-326; the removal call itself is
  modelled as succeeding),
* on rejection, the catch handler (lines 364-474): best-effort removal of
  `destinationPath` whose own outcome is `removeDest` (a `UserCanceled`
  raised by it is swallowed by `.catch(UserCanceled, () => null)`, any
  other failure is reported via `installContext.reportError`), then
  `finishInstall('canceled'|'failed')` when the context exists,
* the outer `.finally` calling `stopIndicator` when the context exists
  (lines 475-481). -/

/-- Outcome of the best-effort `fs.removeAsync(destinationPath)` in the
catch handler (`InstallManager.ts:374-383`). -/
inductive DestRemoveRes where
  | removed
  | ucErr
  | otherErr
  deriving DecidableEq, Repr

/-- Oracle for one run of `install`: the outcome of every stage of the
promise chain that can reject. `none` means the stage resolved. -/
structure Script where
  resolveGame : Option VErr
  gameIdDefined : Bool
  lookupMeta : Option VErr
  nameAndVersion : Option VErr
  innerInstall : Option VErr
  modType : Option VErr
  processInstr : Option VErr
  removeDest : DestRemoveRes
  deriving DecidableEq, Repr

/-- Terminal status of a pipeline, as reported through
`finishInstall` / the callback. -/
inductive Status where
  | success
  | canceled
  | failed
  deriving DecidableEq, Repr

/-- Observable final state of one run of `install`. -/
structure FinalState where
  status : Status
  ctxAssigned : Bool
  pathsAssigned : Bool
  tempRemoveInvoked : Bool
  destRemoveInvoked : Bool
  cleanupFailureReported : Bool
  finishStatus : Option Status
  stopIndicatorCalled : Bool
  deriving DecidableEq, Repr

/-- The `install` promise chain (`InstallManager.ts:188-481`), as a
function of the stage outcomes.  Returns the observable final state. -/
def install (s : Script) : FinalState :=
  -- the chain up to and including the `.finally` that removes `tempPath`:
  -- (rejection?, installContext assigned, destinationPath/tempPath
  -- assigned, removal of tempPath invoked)
  let chain : Option VErr × Bool × Bool × Bool :=
    match s.resolveGame with
    | some e => (some e, false, false, false)
    | none =>
      if s.gameIdDefined = false then
        (some (.processCanceled "You need to select a game before installing this mod"),
         false, false, false)
      else
        match s.lookupMeta with
        | some e => (some e, true, false, false)
        | none =>
          match s.nameAndVersion with
          | some e => (some e, true, false, false)
          | none =>
            let innerErr : Option VErr :=
              match s.innerInstall with
              | some e => some e
              | none =>
                match s.modType with
                | some e => some e
                | none => s.processInstr
            (innerErr, true, true, true)
  match chain with
  | (none, ctx, paths, tr) =>
    { status := .success
      ctxAssigned := ctx
      pathsAssigned := paths
      tempRemoveInvoked := tr
      destRemoveInvoked := false
      cleanupFailureReported := false
      finishStatus := some .success
      stopIndicatorCalled := ctx }
  | (some e, ctx, paths, tr) =>
    let canceled := isCanceledErr e
    let st := if canceled then Status.canceled else Status.failed
    { status := st
      ctxAssigned := ctx
      pathsAssigned := paths
      tempRemoveInvoked := tr
      destRemoveInvoked := paths
      cleanupFailureReported := paths && decide (s.removeDest = .otherErr)
      finishStatus := if ctx then some st else none
      stopIndicatorCalled := ctx }

/-- A run used to witness the C1 theorem: extraction fails with a broken
archive after the staging paths were assigned, and the destination
cleanup fails with a filesystem error. -/
def c1Script : Script :=
  { resolveGame := none
    gameIdDefined := true
    lookupMeta := none
    nameAndVersion := none
    innerInstall := some (.archiveBroken "Unexpected end of archive")
    modType := none
    processInstr := none
    removeDest := .otherErr }

/-! ## Instruction model (`types/IInstallResult`)

`IInstruction` carries a `type` tag and optional type-specific fields.
The field `attribute` of `InstructionGroups` is a Lean keyword and is
spelt `attributeI`; `section` of ini-edit instructions is spelt
`sectionName`. -/

inductive InstructionType where
  | copy
  | mkdir
  | submodule
  | generatefile
  | iniedit
  | unsupported
  | attributeT
  | setmodtype
  | errorT
  | rule
  | unknownType
  deriving DecidableEq, Repr

structure IInstruction where
  type : InstructionType
  source : Option String := none
  destination : Option String := none
  data : Option String := none
  sectionName : Option String := none
  key : Option String := none
  value : Option String := none
  rule : Option String := none
  path : Option String := none
  submoduleType : Option String := none
  deriving DecidableEq, Repr

/-- `InstructionGroups` (`InstallManager.ts:77-88`). -/
structure InstructionGroups where
  copy : List IInstruction := []
  mkdir : List IInstruction := []
  submodule : List IInstruction := []
  generatefile : List IInstruction := []
  iniedit : List IInstruction := []
  unsupported : List IInstruction := []
  attributeI : List IInstruction := []
  setmodtype : List IInstruction := []
  error : List IInstruction := []
  rule : List IInstruction := []
  deriving DecidableEq, Repr

/-- `transformInstructions` (`InstallManager.ts:753-760`): partition the
instruction list into groups by type, preserving list order; instructions
whose type is not a field of `InstructionGroups` are dropped (the
`prev[value.type] !== undefined` check). -/
def transformInstructions (input : List IInstruction) : InstructionGroups :=
  input.foldl (fun prev value =>
    match value.type with
    | .copy => { prev with copy := prev.copy ++ [value] }
    | .mkdir => { prev with mkdir := prev.mkdir ++ [value] }
    | .submodule => { prev with submodule := prev.submodule ++ [value] }
    | .generatefile => { prev with generatefile := prev.generatefile ++ [value] }
    | .iniedit => { prev with iniedit := prev.iniedit ++ [value] }
    | .unsupported => { prev with unsupported := prev.unsupported ++ [value] }
    | .attributeT => { prev with attributeI := prev.attributeI ++ [value] }
    | .setmodtype => { prev with setmodtype := prev.setmodtype ++ [value] }
    | .errorT => { prev with error := prev.error ++ [value] }
    | .rule => { prev with rule := prev.rule ++ [value] }
    | .unknownType => prev) {}

/-- Split a character list at the path separator. -/
def splitSlash : List Char → List (List Char)
  | [] => [[]]
  | c :: cs =>
    if c = '/' then [] :: splitSlash cs
    else
      match splitSlash cs with
      | [] => [[c]]
      | h :: t => (c :: h) :: t

/-- Modelled from the spec: `isPathValid` lives in `util/util.ts`, which
is not part of the sources.  Per the spec, a destination path "is
rejected if it escapes the staging root"; we model exactly that: a path
is invalid when one of its separator-delimited components is a parent
reference. -/
def isPathValid (p : String) : Bool :=
  !((splitSlash p.data).contains ['.', '.'])

/-- `validateInstructions` (`InstallManager.ts:722-751`), on a POSIX
platform (no backslash rewriting): an instruction with a truthy
(non-empty) destination has a leading separator tolerated and is invalid
when `isPathValid` rejects the result. -/
def validateInstructions (instructions : List IInstruction) :
    List (InstructionType × String) :=
  (instructions.filter fun instr =>
    match instr.destination with
    | some d =>
      if d = "" then false
      else
        let destination : String :=
          match d.data with
          | '/' :: rest => String.mk rest
          | _ => d
        !(isPathValid destination)
    | none => false).map fun instr =>
      (instr.type, "invalid destination path")

/-! ## Filesystem transfer model for the copy stage (C2)

`transferFile` (`InstallManager.ts:1598-1604`) wraps `fs.renameAsync` /
`fs.copyAsync` (plus `ensureDir` and `fixDestination`, which do not
affect which transfer is attempted and are folded into the abstract
operation).  The outcome of each filesystem call is given by an oracle
`FsEnv`; `TRes.enoent` models a rejection with `err.code === 'ENOENT'`,
`TRes.eperm` one with `err.code === 'EPERM'`. -/

inductive TRes where
  | ok
  | enoent
  | eperm
  | otherFail
  deriving DecidableEq, Repr

structure FsEnv where
  rename : String → String → TRes
  copy : String → String → TRes

/-- `transferFile` (`InstallManager.ts:1598-1604`). -/
def transferFile (env : FsEnv) (source destination : String) (move : Bool) : TRes :=
  if move then env.rename source destination else env.copy source destination

/-- `path.join`, specialised to the POSIX separator. -/
def pjoin (a b : String) : String := a ++ "/" ++ b

/-- Events observable during instruction processing: notifications shown
to the user and executed instructions.  `errorNotice` is the
`'Installer reported errors'` notification (always `allowReport: false`);
`missingWarn` is the `'Invalid installer'` notification naming the
archive (`allowReport: false`); `invalidNotice` is the
`'Invalid mod installer instructions'` notification;
`unsupportedNotice` the `'Installer unsupported'` info notification. -/
inductive Event where
  | invalidNotice
  | errorNotice (fatal : Bool)
  | unsupportedNotice
  | mkdirE (dest : String)
  | transfer (src dst : String) (move : Bool)
  | missingWarn (archiveName : String)
  | genfileE (dest : String)
  | inieditE (dest : String)
  | submoduleE (key : String)
  | attributeE (key : String)
  | setmodtypeE (value : String)
  | ruleE (r : String)
  deriving DecidableEq, Repr

/-- Errors with which `processInstructions` / `extractArchive` can
reject: `fsError` stands for an unhandled filesystem rejection propagated
out of the copy stage. -/
inductive PErr where
  | userCanceled
  | processCanceled (msg : String)
  | fsError
  deriving DecidableEq, Repr

/-- One transfer attempt with the catch handler of
`InstallManager.ts:1640-1649`: `ENOENT` records the relative source in
`missingFiles` and continues, `EPERM` falls back to a copy
(`transferFile(sourcePath, destPath, false)`; a failure of the fallback
is not caught and propagates), any other failure propagates.
Returns (events, missingFiles entries, rejection). -/
def transferWithCatch (env : FsEnv) (srcRel sourcePath destPath : String)
    (move : Bool) : List Event × List String × Option PErr :=
  match transferFile env sourcePath destPath move with
  | .ok => ([.transfer sourcePath destPath move], [], none)
  | .enoent => ([], [srcRel], none)
  | .eperm =>
    match transferFile env sourcePath destPath false with
    | .ok => ([.transfer sourcePath destPath false], [], none)
    | _ => ([], [], some .fsError)
  | .otherFail => ([], [], some .fsError)

/-- The `Promise.mapSeries` over one source's destinations
(`InstallManager.ts:1638-1650`): every destination whose index is below
`len - 1` is transferred with `move = false`, the destination at index
`len - 1` with `move = true`; processing stops at the first propagated
rejection. -/
def processDests (env : FsEnv) (tempPath destDir srcRel : String) :
    List String → List Event × List String × Option PErr
  | [] => ([], [], none)
  | [destRel] =>
    transferWithCatch env srcRel (pjoin tempPath srcRel) (pjoin destDir destRel) true
  | destRel :: d2 :: rest =>
    let r := transferWithCatch env srcRel (pjoin tempPath srcRel) (pjoin destDir destRel) false
    match r.2.2 with
    | some e => (r.1, r.2.1, some e)
    | none =>
      let r2 := processDests env tempPath destDir srcRel (d2 :: rest)
      (r.1 ++ r2.1, r.2.1 ++ r2.2.1, r2.2.2)

/-- The `sourceMap` grouping of `InstallManager.ts:1628-1632`
(`setdefault(prev, copy.source, []).push(copy.destination)`): keys appear
in first-occurrence order, destinations in list order. -/
def groupCopies (copies : List IInstruction) : List (String × List String) :=
  copies.foldl (fun acc c =>
    let src := c.source.getD ""
    let dst := c.destination.getD ""
    if acc.any (fun g => g.1 = src) then
      acc.map (fun g => if g.1 = src then (g.1, g.2 ++ [dst]) else g)
    else
      acc ++ [(src, [dst])]) []

/-- The outer `Promise.mapSeries` over the sources
(`InstallManager.ts:1634`). -/
def processSources (env : FsEnv) (tempPath destDir : String) :
    List (String × List String) → List Event × List String × Option PErr
  | [] => ([], [], none)
  | (src, dests) :: rest =>
    let r := processDests env tempPath destDir src dests
    match r.2.2 with
    | some e => (r.1, r.2.1, some e)
    | none =>
      let r2 := processSources env tempPath destDir rest
      (r.1 ++ r2.1, r.2.1 ++ r2.2.1, r2.2.2)

/-- `extractArchive` (`InstallManager.ts:1613-1667`): group the copy
instructions by source, transfer them, and show the `'Invalid installer'`
warning naming the archive exactly when `missingFiles` is non-empty
(the `ensureDir` / `getNormalizeFunc` preamble has no observable effect
in this model).  Returns (events, missingFiles, rejection). -/
def extractArchive (env : FsEnv) (archiveName tempPath destDir : String)
    (copies : List IInstruction) : List Event × List String × Option PErr :=
  let r := processSources env tempPath destDir (groupCopies copies)
  match r.2.2 with
  | some e => (r.1, r.2.1, some e)
  | none =>
    (r.1 ++ (if r.2.1 = [] then [] else [.missingWarn archiveName]), r.2.1, none)

/-- The distinct ini-edit destinations in first-occurrence order
(the `byDest` grouping keys of `InstallManager.ts:872-875`). -/
def dedupFirst (l : List String) : List String :=
  l.foldl (fun acc x => if acc.contains x then acc else acc ++ [x]) []

/-- The execution stages of `processInstructions` past the
validation/error/unsupported reporting (`InstallManager.ts:965-978`):
`reportUnsupported`, then mkdir, the copy stage, generated files,
ini edits, submodules (each nested install abstracted to one event),
attributes, the last `setmodtype` value, rules.  Only the copy stage can
reject in this model. -/
def execGroups (env : FsEnv) (archiveName tempPath destDir : String)
    (g : InstructionGroups) : List Event × Option PErr :=
  let unsup : List Event :=
    if g.unsupported = [] then [] else [.unsupportedNotice]
  let mk : List Event := g.mkdir.map fun i => .mkdirE (i.destination.getD "")
  let ext := extractArchive env archiveName tempPath destDir g.copy
  match ext.2.2 with
  | some e => (unsup ++ mk ++ ext.1, some e)
  | none =>
    let gen : List Event := g.generatefile.map fun i => .genfileE (i.destination.getD "")
    let ini : List Event :=
      (dedupFirst (g.iniedit.map fun i => i.destination.getD "")).map .inieditE
    let sub : List Event := g.submodule.map fun i => .submoduleE (i.key.getD "")
    let attrs : List Event := g.attributeI.map fun i => .attributeE (i.key.getD "")
    let smt : List Event :=
      match g.setmodtype.getLast? with
      | some i => [.setmodtypeE (i.value.getD "")]
      | none => []
    let rules : List Event := g.rule.map fun i => .ruleE (i.rule.getD "")
    (unsup ++ mk ++ ext.1 ++ gen ++ ini ++ sub ++ attrs ++ smt ++ rules, none)

/-- The `result.instructions` value passed to `processInstructions`:
JavaScript distinguishes `null`, `undefined` and an array. -/
inductive TsList (α : Type) where
  | nullV
  | undef
  | val (l : List α)
  deriving DecidableEq, Repr

/-- `processInstructions` (`InstallManager.ts:899-979`):
`null` instructions reject with `UserCanceled`; `undefined` or empty
instructions reject with `ProcessCanceled('Empty archive or no options
selected')`; an invalid destination shows the invalid-instructions
notification and rejects with `ProcessCanceled('Invalid installer
instructions')`; a non-empty `error` group shows the (non-reportable)
`'Installer reported errors'` notification and, when one of the error
instructions has value `"fatal"`, rejects with
`ProcessCanceled('Installer script failed')`; otherwise the execution
stages run.  Returns (events, rejection). -/
def processInstructions (env : FsEnv) (archiveName tempPath destDir : String)
    (instructions : TsList IInstruction) : List Event × Option PErr :=
  match instructions with
  | .nullV => ([], some .userCanceled)
  | .undef => ([], some (.processCanceled "Empty archive or no options selected"))
  | .val instrs =>
    if instrs = [] then
      ([], some (.processCanceled "Empty archive or no options selected"))
    else if validateInstructions instrs ≠ [] then
      ([.invalidNotice], some (.processCanceled "Invalid installer instructions"))
    else
      let g := transformInstructions instrs
      if g.error ≠ [] then
        let fatal := g.error.find? fun err => err.value = some "fatal"
        match fatal with
        | some _ => ([.errorNotice true], some (.processCanceled "Installer script failed"))
        | none =>
          let r := execGroups env archiveName tempPath destDir g
          (.errorNotice false :: r.1, r.2)
      else
        let r := execGroups env archiveName tempPath destDir g
        (r.1, r.2)

/-- Events that execute an instruction (as opposed to notifications):
used to state that a fatal installer error prevents all staging and
persistence. -/
def isExecEvent : Event → Bool
  | .mkdirE _ => true
  | .transfer _ _ _ => true
  | .genfileE _ => true
  | .inieditE _ => true
  | .submoduleE _ => true
  | .attributeE _ => true
  | .setmodtypeE _ => true
  | .ruleE _ => true
  | _ => false

/-! ## C4: `findPreviousVersionMod` and the version-choice dialog -/

/-- The slice of a stored mod's attributes read by
`findPreviousVersionMod`: `getSafe(mods[key].attributes, ['newestFileId'])`
and `getSafe(mods[key].attributes, ['fileId'])`; `none` models
`undefined`. -/
structure ModAttributes where
  newestFileId : Option Nat := none
  fileId : Option Nat := none
  deriving DecidableEq, Repr

structure StoredMod where
  id : String
  attributes : ModAttributes
  deriving DecidableEq, Repr

/-- `findPreviousVersionMod` (`InstallManager.ts:985-998`): iterate the
mods of the game in key order and keep the last one whose
`newestFileId !== currentFileId && newestFileId === fileId` (the JS
`===`/`!==` on possibly-undefined numbers is `Option` equality). -/
def findPreviousVersionMod (fileId : Nat) (mods : List (String × StoredMod)) :
    Option StoredMod :=
  mods.foldl (fun acc kv =>
    let newestFileId := kv.2.attributes.newestFileId
    let currentFileId := kv.2.attributes.fileId
    if newestFileId ≠ currentFileId ∧ newestFileId = some fileId then
      some kv.2
    else acc) none

/-- When `install` offers the version-choice (Cancel / Replace / Install)
dialog (`InstallManager.ts:253-298`): `findPreviousVersionMod` is
consulted only when `modInfo.fileId` is defined, and `userVersionChoice`
runs only when it found a mod and `currentProfile` is defined. -/
def versionChoiceOffered (modInfoFileId : Option Nat)
    (mods : List (String × StoredMod)) (profileDefined : Bool) : Bool :=
  match modInfoFileId with
  | none => false
  | some fid => (findPreviousVersionMod fid mods).isSome && profileDefined

/-- The condition C4 states for the prior mod:
`newestFileId == currentFileId == fullInfo.fileId`. -/
def claimedVersionCond (m : StoredMod) (fid : Nat) : Prop :=
  m.attributes.newestFileId = some fid ∧ m.attributes.fileId = some fid

/-- A prior mod whose attributes satisfy
`newestFileId == currentFileId == fileId == 42`. -/
def c4Mod : StoredMod :=
  { id := "m1", attributes := { newestFileId := some 42, fileId := some 42 } }

/-! ## C5 / C7: the installer registry -/

/-- `ISupportedResult` (`types/TestSupported`). -/
structure ISupportedResult where
  supported : Bool
  requiredFiles : List String := []

/-- `IModInstaller`: the `install` function itself is opaque to the
registry, so it is modelled as an opaque tag identifying the
registration. -/
structure IModInstaller where
  priority : Int
  testSupported : List String → String → ISupportedResult
  installTag : String

structure ISupportedInstaller where
  installer : IModInstaller
  requiredFiles : List String

/-- Insert an element into a list that is scanned left to right, keeping
every element of priority `≤ x.priority` before `x`: the result of one
step of a stable sort by ascending priority. -/
def insertInstaller (x : IModInstaller) : List IModInstaller → List IModInstaller
  | [] => [x]
  | y :: ys =>
    if y.priority ≤ x.priority then y :: insertInstaller x ys
    else x :: y :: ys

/-- `this.mInstallers.sort((lhs, rhs) => lhs.priority - rhs.priority)`
(`InstallManager.ts:129-131`): `Array.prototype.sort` is stable
(ES2019), which a left-to-right insertion sort realises. -/
def sortInstallers (l : List IModInstaller) : List IModInstaller :=
  l.foldl (fun acc x => insertInstaller x acc) []

/-- `addInstaller` (`InstallManager.ts:124-132`): push the new entry and
re-sort the list by ascending priority. -/
def addInstaller (installers : List IModInstaller) (priority : Int)
    (testSupported : List String → String → ISupportedResult)
    (installTag : String) : List IModInstaller :=
  sortInstallers (installers ++ [⟨priority, testSupported, installTag⟩])

/-- The registry obtained by registering `regs` in order through
`addInstaller`, starting from the empty registry. -/
def registryOf (regs : List IModInstaller) : List IModInstaller :=
  regs.foldl (fun acc i => addInstaller acc i.priority i.testSupported i.installTag) []

/-- `getInstaller` (`InstallManager.ts:1086-1101`): scan from `offset`,
returning the first installer whose `testSupported` yields
`supported === true` together with its `requiredFiles`; `none` once the
offset passes the end of the list. -/
def getInstaller (installers : List IModInstaller) (fileList : List String)
    (gameId : String) (offset : Nat) : Option ISupportedInstaller :=
  if h : installers.length ≤ offset then none
  else
    let inst := installers.get ⟨offset, by omega⟩
    if (inst.testSupported fileList gameId).supported then
      some ⟨inst, (inst.testSupported fileList gameId).requiredFiles⟩
    else
      getInstaller installers fileList gameId (offset + 1)
termination_by installers.length - offset
decreasing_by simp_wf; omega

/-- Modelled from the spec: `makeListInstaller` lives in
`listInstaller.ts`, which is not part of the sources; per the spec it
synthesises a list-installer over the supplied file list. -/
def makeListInstaller (extractList : List String) : ISupportedInstaller :=
  ⟨⟨0, fun _ _ => ⟨true, extractList⟩, "listInstaller"⟩, extractList⟩

/-- The installer-selection tail of `installInner`
(`InstallManager.ts:634-650`): with an explicit `extractList` a
list-installer is synthesised; otherwise the registry is consulted, and
if no installer supports the file list the chain throws
`new Error('no installer supporting this file')` — a plain `Error`. -/
def selectInstaller (extractList : Option (List String))
    (installers : List IModInstaller) (fileList : List String)
    (gameId : String) : Except VErr ISupportedInstaller :=
  match extractList with
  | some l => .ok (makeListInstaller l)
  | none =>
    match getInstaller installers fileList gameId 0 with
    | none => .error (.plainError "no installer supporting this file")
    | some supportedInstaller => .ok supportedInstaller

/-- A `testSupported` that accepts every file list. -/
def alwaysSupported : List String → String → ISupportedResult :=
  fun _ _ => ⟨true, []⟩

/-- The registrations of C7's scenario: `(p=10,A), (p=0,B), (p=5,C)`,
each matching every file list. -/
def c7Regs : List IModInstaller :=
  [⟨10, alwaysSupported, "A"⟩, ⟨0, alwaysSupported, "B"⟩, ⟨5, alwaysSupported, "C"⟩]

/-! ## C8: `downloadModAsync` / `downloadMatching` -/

/-- The slice of `IModInfoEx` read by the download helpers; `modId` and
`fileId` model `getSafe(lookupResult, ['details', 'modId'|'fileId'])`. -/
structure IModInfoEx where
  source : String
  gameId : String
  domainName : Option String := none
  sourceURI : String
  modId : Option String := none
  fileId : Option String := none
  deriving DecidableEq, Repr

/-- The slice of `IReference` read by `downloadModAsync`. -/
structure IReference where
  versionMatch : Option String := none
  deriving DecidableEq, Repr

/-- The external download operation a dependency download resolves to:
either `start-download-update` (`downloadMatching`,
`InstallManager.ts:1150-1151`) or `start-download` with the lookup's
`sourceURI` (`downloadURL`, `InstallManager.ts:1119-1141`). -/
inductive DlCall where
  | startDownloadUpdate (source domain : String) (modId fileId : Option String)
      (pattern : String)
  | startDownload (uri : String)
  deriving DecidableEq, Repr

/-- `downloadURL` (`InstallManager.ts:1119-1141`): emits
`start-download` with `[lookupResult.sourceURI]`. -/
def downloadURL (lookupResult : IModInfoEx) : DlCall :=
  .startDownload lookupResult.sourceURI

/-- `downloadMatching` (`InstallManager.ts:1143-1157`): fall back to
`downloadURL` only when **both** `modId` and `fileId` are undefined,
otherwise emit `start-download-update` (with
`domainName || gameId` as domain). -/
def downloadMatching (lookupResult : IModInfoEx) (pattern : String) : DlCall :=
  if lookupResult.modId = none ∧ lookupResult.fileId = none then
    downloadURL lookupResult
  else
    .startDownloadUpdate lookupResult.source
      (lookupResult.domainName.getD lookupResult.gameId)
      lookupResult.modId lookupResult.fileId pattern

/-- `parseInt(versionMatch[0], 16)` is a number exactly when the first
character is a hexadecimal digit (an empty string yields `NaN`). -/
def firstCharHex (s : String) : Bool :=
  match s.data with
  | [] => false
  | c :: _ => c.isDigit || ('a' ≤ c && c ≤ 'f') || ('A' ≤ c && c ≤ 'F')

/-- `downloadModAsync` (`InstallManager.ts:1159-1175`): the fuzzy test is
`versionMatch` defined and (first char not hex, or
`semver.validRange(versionMatch) !== versionMatch`); `validRange` is the
external `semver` library, supplied as an oracle (`none` models `null`).
The `.then(res => res === undefined ? downloadURL : res)` refinement is
dropped: `downloadMatching` never resolves `undefined`. -/
def downloadModAsync (validRange : String → Option String)
    (requirement : IReference) (lookupResult : IModInfoEx) : DlCall :=
  match requirement.versionMatch with
  | some vm =>
    if ¬ firstCharHex vm ∨ validRange vm ≠ some vm then
      downloadMatching lookupResult vm
    else
      downloadURL lookupResult
  | none => downloadURL lookupResult

/-- The fuzzy-versionMatch condition as both the code and C8 state it. -/
def fuzzyVersion (validRange : String → Option String) (vm : String) : Bool :=
  !(firstCharHex vm) || decide (validRange vm ≠ some vm)

/-- Whether a `DlCall` is the `start-download-update` path. -/
def isUpdateCall : DlCall → Bool
  | .startDownloadUpdate _ _ _ _ _ => true
  | .startDownload _ => false

/-- C8's counterexample lookup result: `modId` defined, `fileId`
undefined. -/
def c8Lookup : IModInfoEx :=
  { source := "nexus", gameId := "skyrim", domainName := some "skyrim",
    sourceURI := "http://example.invalid/file", modId := some "123", fileId := none }

/-! ## C9 / C10: `doInstallDependencies` and `updateRules` -/

/-- The slice of an installed mod the dependency batch reads
(`dep.mod.id`). -/
structure DepMod where
  id : String
  deriving DecidableEq, Repr

/-- The slice of `IDependency` the batch and `updateRules` read. -/
structure IDependency where
  reference : String
  mod : Option DepMod := none
  deriving DecidableEq, Repr

/-- Per-dependency failure classes distinguished by the catch handlers of
`doInstallDependencies` (`InstallManager.ts:1234-1262`).
`processCanceled`'s flag models `err.extraInfo.alreadyReported`. -/
inductive DepErr where
  | processCanceled (alreadyReported : Bool)
  | notFound
  | userCanceled
  | otherErr
  deriving DecidableEq, Repr

/-- Outcome of one dependency's download-then-install chain
(`InstallManager.ts:1199-1233`): `ok modId` means the download and the
install (or the reuse of the already-resolved `dep.mod`) completed and
yielded `modId`. -/
inductive DepOutcome where
  | ok (modId : String)
  | err (e : DepErr)
  deriving DecidableEq, Repr

/-- Oracle for the dependency batch: the outcome of each dependency's
chain, and the store's `persistent.mods[gameId]` lookup after a
successful install. -/
structure DepEnv where
  outcome : IDependency → DepOutcome
  modOf : String → DepMod

/-- Notifications and store effects observable during the batch.
`depNoticePC` / `depNoticeNF` are the `'Failed to install dependency'`
notifications with `allowReport: false`; `depNoticeOther` the reportable
one; `enabled` records `setModEnabled`. -/
inductive DepEvent where
  | depNoticePC
  | depNoticeNF
  | depNoticeOther
  | enabled (modId : String)
  deriving DecidableEq, Repr

/-- One dependency's chain with its catch handlers
(`InstallManager.ts:1199-1268`): success enables the mod and sets
`dep.mod` from the store; `ProcessCanceled` is swallowed (with a
non-reportable notification unless `alreadyReported`), `NotFound` is
swallowed with a non-reportable notification, any other error except
`UserCanceled` is shown and swallowed; `UserCanceled` is re-thrown
(`Except.error ()`).  A swallowed error leaves the mapped value
`undefined` (`Option.none`). -/
def installDependency (env : DepEnv) (dep : IDependency) :
    List DepEvent × Except Unit (Option IDependency) :=
  match env.outcome dep with
  | .ok modId =>
    ([.enabled modId], .ok (some { dep with mod := some (env.modOf modId) }))
  | .err (.processCanceled alreadyReported) =>
    (if alreadyReported then [] else [.depNoticePC], .ok none)
  | .err .notFound => ([.depNoticeNF], .ok none)
  | .err .userCanceled => ([], .error ())
  | .err .otherErr => ([.depNoticeOther], .ok none)

/-- The dependency batch body: sequential composition of
`installDependency` (the `concurrency: 4` of `Promise.map` bounds
parallel progress but not the result).  `none` in the second component
models the batch promise rejecting with `UserCanceled`. -/
def depBatch (env : DepEnv) : List IDependency →
    List DepEvent × Option (List (Option IDependency))
  | [] => ([], some [])
  | dep :: rest =>
    let r := installDependency env dep
    match r.2 with
    | .error _ => (r.1, none)
    | .ok od =>
      let r2 := depBatch env rest
      (r.1 ++ r2.1, r2.2.map fun l => od :: l)

/-- `doInstallDependencies` (`InstallManager.ts:1191-1288`): run the
batch; `.catch(UserCanceled, () => [])` resolves the whole batch to the
empty list; otherwise `.filter(dep => dep !== undefined)` keeps exactly
the successfully installed dependencies. -/
def doInstallDependencies (env : DepEnv) (dependencies : List IDependency) :
    List DepEvent × List IDependency :=
  let r := depBatch env dependencies
  match r.2 with
  | none => (r.1, [])
  | some l => (r.1, l.filterMap id)

/-- `updateRules` (`InstallManager.ts:1290-1314`), restricted to the
reference pinning C10 is about: each dependency's rule is rewritten with
`reference.id = dep.mod.id`.  `dep.mod` being `undefined` makes the
dereference throw (`none`); otherwise the list of
(reference, pinned mod id) pairs is produced. -/
def updateRules (dependencies : List IDependency) :
    Option (List (String × String)) :=
  dependencies.foldr (fun dep acc =>
    match dep.mod, acc with
    | some m, some l => some ((dep.reference, m.id) :: l)
    | _, _ => none) (some [])

/-- The per-dependency value C9/C10 predict for the resolved list. -/
def depResult (env : DepEnv) (dep : IDependency) : Option IDependency :=
  match env.outcome dep with
  | .ok modId => some { dep with mod := some (env.modOf modId) }
  | .err _ => none

/-- The notifications/effects C9 predicts for one dependency. -/
def depEvents (env : DepEnv) (dep : IDependency) : List DepEvent :=
  match env.outcome dep with
  | .ok modId => [.enabled modId]
  | .err (.processCanceled alreadyReported) =>
    if alreadyReported then [] else [.depNoticePC]
  | .err .notFound => [.depNoticeNF]
  | .err .userCanceled => []
  | .err .otherErr => [.depNoticeOther]

/-- The transfer pattern the spec's words describe for the copy stage
(stated for comparison with `extractArchive`): for every source with `n`
destinations, the destinations at indices `0..n-2` are transferred by
copy and the destination at index `n-1` by rename/move. -/
def specTransferPlan (tempPath destDir : String)
    (groups : List (String × List String)) : List Event :=
  groups.flatMap fun g =>
    (g.2.dropLast.map fun d =>
      Event.transfer (pjoin tempPath g.1) (pjoin destDir d) false)
    ++ (match g.2.getLast? with
        | some d => [Event.transfer (pjoin tempPath g.1) (pjoin destDir d) true]
        | none => [])

/-- A filesystem oracle on which every transfer succeeds. -/
def fsOk : FsEnv := ⟨fun _ _ => .ok, fun _ _ => .ok⟩

/-- Copy instructions with a duplicated source, used as C2's witness. -/
def c2Copies : List IInstruction :=
  [{ type := .copy, source := some "a", destination := some "x" },
   { type := .copy, source := some "a", destination := some "y" },
   { type := .copy, source := some "b", destination := some "z" }]

/-- A filesystem oracle on which every rename fails with `EPERM` and
every copy succeeds. -/
def fsPerm : FsEnv := ⟨fun _ _ => .eperm, fun _ _ => .ok⟩

/-- A filesystem oracle on which every transfer fails with `ENOENT`. -/
def fsMissing : FsEnv := ⟨fun _ _ => .enoent, fun _ _ => .enoent⟩

/-- C3's counterexample instruction list: a non-fatal `error` instruction
together with a `copy` instruction whose destination escapes the staging
root. -/
def c3Instrs : List IInstruction :=
  [{ type := .errorT, value := some "warning", source := some "problem" },
   { type := .copy, source := some "a", destination := some "../x" }]

/-- C3's witness instruction list: a non-fatal `error` instruction
together with a valid `copy` instruction. -/
def c3GoodInstrs : List IInstruction :=
  [{ type := .errorT, value := some "warning", source := some "problem" },
   { type := .copy, source := some "a", destination := some "x" }]

/-- C9's counterexample environment: the single dependency fails with a
`ProcessCanceled` flagged `alreadyReported`. -/
def c9Env : DepEnv := ⟨fun _ => .err (.processCanceled true), fun s => ⟨s⟩⟩

def c9Dep : IDependency := ⟨"dependencyRef", none⟩

/-- An environment in which every dependency fails with `UserCanceled`. -/
def c9UcEnv : DepEnv := ⟨fun _ => .err .userCanceled, fun s => ⟨s⟩⟩

/-- A mixed batch environment: `r1` installs, `r2` is not found, `r3`
fails with a generic error. -/
def c9MixEnv : DepEnv :=
  ⟨fun d =>
    if d.reference = "r1" then .ok "m1"
    else if d.reference = "r2" then .err .notFound
    else .err .otherErr,
   fun s => ⟨s⟩⟩

def c9Deps : List IDependency := [⟨"r1", none⟩, ⟨"r2", none⟩, ⟨"r3", none⟩]

/-- C10's witness environment: the dependency installs as mod `m1`. -/
def c10Env : DepEnv := ⟨fun _ => .ok "m1", fun s => ⟨s⟩⟩

def c10Dep : IDependency := ⟨"r", none⟩

/-! ## Theorems -/

/-- C1: for every run of `install` in which `tempPath` was assigned, the
removal of the staging directory `<installDir>/<modId>.installing` is
invoked before the pipeline reaches its terminal state, whatever that
state is; and on every non-success terminal outcome in which
`destinationPath` was assigned, the removal of the destination directory
is invoked best-effort — a `UserCanceled` raised during that deletion is
swallowed (treated as success, nothing reported), while any other
deletion failure is reported to the user. -/
theorem install_cleanup_invariant (s : Script) :
    ((install s).pathsAssigned = true → (install s).tempRemoveInvoked = true)
    ∧ ((install s).status ≠ Status.success → (install s).pathsAssigned = true →
        (install s).destRemoveInvoked = true
        ∧ (s.removeDest = DestRemoveRes.ucErr →
            (install s).cleanupFailureReported = false)
        ∧ (s.removeDest = DestRemoveRes.otherErr →
            (install s).cleanupFailureReported = true)) := by
  obtain ⟨rg, gid, lm, nv, ii, mt, pi, rd⟩ := s
  cases rg <;> cases gid <;> cases lm <;> cases nv <;> cases ii <;> cases mt <;>
    cases pi <;> cases rd <;>
    simp [install]

/-- Witness for C1 at `c1Script`: extraction fails after the staging
paths were assigned; the staging removal is invoked, the destination
removal is invoked, and the cleanup failure is reported. -/
theorem install_cleanup_invariant_witness :
    (install c1Script).pathsAssigned = true
    ∧ (install c1Script).status ≠ Status.success
    ∧ (install c1Script).tempRemoveInvoked = true
    ∧ (install c1Script).destRemoveInvoked = true
    ∧ (install c1Script).cleanupFailureReported = true :=
  ⟨by decide, by decide,
   (install_cleanup_invariant c1Script).1 (by decide),
   ((install_cleanup_invariant c1Script).2 (by decide) (by decide)).1,
   ((install_cleanup_invariant c1Script).2 (by decide) (by decide)).2.2 (by decide)⟩

/-- C4 counterexample: a prior mod whose attributes satisfy
`newestFileId == currentFileId == fullInfo.fileId` (all `42`) does
**not** trigger the version-choice dialog, because
`findPreviousVersionMod` requires `newestFileId !== currentFileId`
(`InstallManager.ts:992`). -/
theorem versionChoice_counterexample :
    claimedVersionCond c4Mod 42
    ∧ findPreviousVersionMod 42 [("m1", c4Mod)] = none
    ∧ versionChoiceOffered (some 42) [("m1", c4Mod)] true = false :=
  ⟨⟨rfl, rfl⟩, rfl, rfl⟩

/-- C4 (amended): the version-choice dialog is offered exactly when
`modInfo.fileId` is defined, the current profile exists, and some prior
mod has `newestFileId ≠ currentFileId` together with
`newestFileId == fullInfo.fileId`. -/
theorem versionChoice_iff (modInfoFileId : Option Nat)
    (mods : List (String × StoredMod)) (profileDefined : Bool) :
    versionChoiceOffered modInfoFileId mods profileDefined = true
      ↔ ∃ fid, modInfoFileId = some fid ∧ profileDefined = true
          ∧ ∃ kv ∈ mods,
              kv.2.attributes.newestFileId ≠ kv.2.attributes.fileId
              ∧ kv.2.attributes.newestFileId = some fid := by
  have key : ∀ (fid : Nat) (l : List (String × StoredMod)) (acc : Option StoredMod),
      (l.foldl (fun acc kv =>
        if kv.2.attributes.newestFileId ≠ kv.2.attributes.fileId
            ∧ kv.2.attributes.newestFileId = some fid then
          some kv.2
        else acc) acc).isSome = true
        ↔ acc.isSome = true ∨ ∃ kv ∈ l,
            kv.2.attributes.newestFileId ≠ kv.2.attributes.fileId
            ∧ kv.2.attributes.newestFileId = some fid := by
    intro fid l
    induction l with
    | nil => simp
    | cons kv rest ih =>
      intro acc
      rw [List.foldl_cons]
      by_cases h : kv.2.attributes.newestFileId ≠ kv.2.attributes.fileId
          ∧ kv.2.attributes.newestFileId = some fid
      · rw [if_pos h, ih]
        constructor
        · intro _
          exact Or.inr ⟨kv, List.mem_cons_self kv rest, h⟩
        · intro _
          exact Or.inl rfl
      · rw [if_neg h, ih]
        constructor
        · rintro (ha | ⟨x, hx, hc⟩)
          · exact Or.inl ha
          · exact Or.inr ⟨x, List.mem_cons_of_mem kv hx, hc⟩
        · rintro (ha | ⟨x, hx, hc⟩)
          · exact Or.inl ha
          · rcases List.mem_cons.mp hx with rfl | hx'
            · exact absurd hc h
            · exact Or.inr ⟨x, hx', hc⟩
  cases modInfoFileId with
  | none => simp [versionChoiceOffered]
  | some fid =>
    have hunfold : findPreviousVersionMod fid mods
        = mods.foldl (fun acc kv =>
            if kv.2.attributes.newestFileId ≠ kv.2.attributes.fileId
                ∧ kv.2.attributes.newestFileId = some fid then
              some kv.2
            else acc) none := rfl
    simp only [versionChoiceOffered, Bool.and_eq_true]
    rw [hunfold, key fid mods none]
    simp only [Option.isSome_none, Bool.false_eq_true, false_or]
    constructor
    · rintro ⟨hex, hp⟩
      exact ⟨fid, rfl, hp, hex⟩
    · rintro ⟨fid', hfid, hp, hex⟩
      cases hfid
      exact ⟨hex, hp⟩

/-- Witness for C4 (amended) at a prior mod with `newestFileId = 7`,
`currentFileId = 3` and a new archive with `fileId = 7`. -/
theorem versionChoice_iff_witness :
    versionChoiceOffered (some 7)
      [("old", { id := "old",
                 attributes := { newestFileId := some 7, fileId := some 3 } })]
      true = true :=
  (versionChoice_iff (some 7) _ true).mpr
    ⟨7, rfl, rfl,
     ⟨("old", { id := "old",
                attributes := { newestFileId := some 7, fileId := some 3 } }),
      by simp, by decide, rfl⟩⟩

/-- C8 counterexample: a fuzzy `versionMatch` (`"^1.0.0"`) with a lookup
result whose `details.modId` is defined but whose `details.fileId` is
undefined still takes the `start-download-update` path, because
`downloadMatching` falls back to `start-download` only when **both** ids
are undefined (`InstallManager.ts:1147`); the claim predicts
`start-download` here. -/
theorem downloadModAsync_counterexample :
    c8Lookup.fileId = none
    ∧ downloadModAsync (fun _ => none) ⟨some "^1.0.0"⟩ c8Lookup
        = DlCall.startDownloadUpdate "nexus" "skyrim" (some "123") none "^1.0.0"
    ∧ isUpdateCall (downloadModAsync (fun _ => none) ⟨some "^1.0.0"⟩ c8Lookup)
        = true :=
  ⟨rfl, rfl, rfl⟩

/-- C8 (amended): `downloadModAsync` takes the `start-download-update`
path exactly when the reference's `versionMatch` is fuzzy (first
character not a hex digit, or not equal to its own valid exact semver
range) and the lookup result has **at least one** of `modId` and
`fileId`; in every other case it falls back to `start-download` with the
lookup result's `sourceURI`. -/
theorem downloadModAsync_update_iff (validRange : String → Option String)
    (requirement : IReference) (lookupResult : IModInfoEx) :
    (isUpdateCall (downloadModAsync validRange requirement lookupResult) = true
      ↔ ∃ vm, requirement.versionMatch = some vm
          ∧ fuzzyVersion validRange vm = true
          ∧ (lookupResult.modId ≠ none ∨ lookupResult.fileId ≠ none))
    ∧ (isUpdateCall (downloadModAsync validRange requirement lookupResult) = false →
        downloadModAsync validRange requirement lookupResult
          = DlCall.startDownload lookupResult.sourceURI) := by
  obtain ⟨vm?⟩ := requirement
  cases vm? with
  | none => simp [downloadModAsync, downloadURL, isUpdateCall]
  | some vm =>
    have hunf : downloadModAsync validRange ⟨some vm⟩ lookupResult
        = if ¬ firstCharHex vm = true ∨ validRange vm ≠ some vm then
            downloadMatching lookupResult vm
          else downloadURL lookupResult := rfl
    by_cases hf : ¬ firstCharHex vm = true ∨ validRange vm ≠ some vm
    · rw [if_pos hf] at hunf
      have hf' : fuzzyVersion validRange vm = true := by
        rcases hf with h | h
        · have hx : firstCharHex vm = false := by
            cases hc : firstCharHex vm
            · rfl
            · exact absurd hc h
          simp [fuzzyVersion, hx]
        · simp [fuzzyVersion, h]
      by_cases hid : lookupResult.modId = none ∧ lookupResult.fileId = none
      · have hm : downloadMatching lookupResult vm
            = DlCall.startDownload lookupResult.sourceURI := by
          unfold downloadMatching
          rw [if_pos hid]
          rfl
        rw [hunf, hm]
        constructor
        · constructor
          · intro h
            simp [isUpdateCall] at h
          · rintro ⟨x, hx, _, hids⟩
            rcases hids with h | h
            · exact (h hid.1).elim
            · exact (h hid.2).elim
        · intro _
          rfl
      · have hm : downloadMatching lookupResult vm
            = DlCall.startDownloadUpdate lookupResult.source
                (lookupResult.domainName.getD lookupResult.gameId)
                lookupResult.modId lookupResult.fileId vm := by
          unfold downloadMatching
          rw [if_neg hid]
        rw [hunf, hm]
        constructor
        · constructor
          · intro _
            refine ⟨vm, rfl, hf', ?_⟩
            rcases not_and_or.mp hid with h | h
            · exact Or.inl h
            · exact Or.inr h
          · intro _
            rfl
        · intro h
          simp [isUpdateCall] at h
    · rw [if_neg hf] at hunf
      have hhex : firstCharHex vm = true := by
        by_contra hc
        exact hf (Or.inl hc)
      have hvr : validRange vm = some vm := by
        by_contra hc
        exact hf (Or.inr hc)
      rw [hunf]
      constructor
      · constructor
        · intro h
          simp [downloadURL, isUpdateCall] at h
        · rintro ⟨x, hx, hfz, _⟩
          have hx' : some vm = some x := hx
          cases Option.some.inj hx'
          simp [fuzzyVersion, hhex, hvr] at hfz
      · intro _
        rfl

/-- Witness for C8 (amended): with a fuzzy `versionMatch` and only
`modId` defined, the update path is taken. -/
theorem downloadModAsync_update_iff_witness :
    isUpdateCall (downloadModAsync (fun _ => none) ⟨some "^1.0.0"⟩ c8Lookup)
      = true :=
  (downloadModAsync_update_iff (fun _ => none) ⟨some "^1.0.0"⟩ c8Lookup).1.mpr
    ⟨"^1.0.0", rfl, by decide, Or.inl (by decide)⟩

/-- C6: `processInstructions` rejects with `UserCanceled` when the
installer result's instruction list is `null`, and with
`ProcessCanceled('Empty archive or no options selected')` when it is
`undefined` or the empty list. -/
theorem processInstructions_empty (env : FsEnv)
    (archiveName tempPath destDir : String) :
    processInstructions env archiveName tempPath destDir TsList.nullV
      = ([], some PErr.userCanceled)
    ∧ processInstructions env archiveName tempPath destDir TsList.undef
      = ([], some (PErr.processCanceled "Empty archive or no options selected"))
    ∧ processInstructions env archiveName tempPath destDir (TsList.val [])
      = ([], some (PErr.processCanceled "Empty archive or no options selected")) :=
  ⟨rfl, rfl, by simp [processInstructions]⟩

theorem processDests_allok (env : FsEnv) (tempPath destDir src : String)
    (h : ∀ s d b, transferFile env s d b = TRes.ok) (dests : List String) :
    processDests env tempPath destDir src dests
      = ((dests.dropLast.map fun d =>
            Event.transfer (pjoin tempPath src) (pjoin destDir d) false)
          ++ (match dests.getLast? with
              | some d => [Event.transfer (pjoin tempPath src) (pjoin destDir d) true]
              | none => []),
         [], none) := by
  induction dests with
  | nil => simp [processDests]
  | cons d rest ih =>
    cases rest with
    | nil => simp [processDests, transferWithCatch, h]
    | cons d2 rest2 =>
      simp [processDests, transferWithCatch, h, ih]

theorem processSources_allok (env : FsEnv) (tempPath destDir : String)
    (h : ∀ s d b, transferFile env s d b = TRes.ok)
    (groups : List (String × List String)) :
    processSources env tempPath destDir groups
      = (specTransferPlan tempPath destDir groups, [], none) := by
  induction groups with
  | nil => simp [processSources, specTransferPlan]
  | cons g rest ih =>
    obtain ⟨src, dests⟩ := g
    simp only [processSources, processDests_allok env tempPath destDir src h dests,
      ih, specTransferPlan, List.flatMap_cons, List.nil_append]

theorem processDests_missing (env : FsEnv) (tempPath destDir src : String)
    (h : ∀ d b, transferFile env (pjoin tempPath src) d b = TRes.enoent)
    (dests : List String) :
    processDests env tempPath destDir src dests
      = ([], dests.map fun _ => src, none) := by
  induction dests with
  | nil => simp [processDests]
  | cons d rest ih =>
    cases rest with
    | nil => simp [processDests, transferWithCatch, h]
    | cons d2 rest2 =>
      simp only [processDests, transferWithCatch, h, ih, List.map_cons,
        List.nil_append, List.cons_append]

theorem transferWithCatch_events_transfer (env : FsEnv)
    (srcRel sourcePath destPath : String) (move : Bool) (ev : Event)
    (hev : ev ∈ (transferWithCatch env srcRel sourcePath destPath move).1) :
    ∃ s d b, ev = Event.transfer s d b := by
  unfold transferWithCatch at hev
  cases h1 : transferFile env sourcePath destPath move <;> rw [h1] at hev
  · simp at hev
    exact ⟨_, _, _, hev⟩
  · simp at hev
  · cases h2 : transferFile env sourcePath destPath false <;> rw [h2] at hev <;>
      simp at hev
    exact ⟨_, _, _, hev⟩
  · simp at hev

theorem processDests_events_transfer (env : FsEnv)
    (tempPath destDir src : String) (dests : List String) (ev : Event)
    (hev : ev ∈ (processDests env tempPath destDir src dests).1) :
    ∃ s d b, ev = Event.transfer s d b := by
  induction dests with
  | nil => simp [processDests] at hev
  | cons d rest ih =>
    cases rest with
    | nil => exact transferWithCatch_events_transfer env src _ _ true ev hev
    | cons d2 rest2 =>
      rw [processDests] at hev
      cases hr : (transferWithCatch env src (pjoin tempPath src)
          (pjoin destDir d) false).2.2 <;> rw [hr] at hev <;> simp at hev
      · rcases hev with hev | hev
        · exact transferWithCatch_events_transfer env src _ _ false ev hev
        · exact ih hev
      · exact transferWithCatch_events_transfer env src _ _ false ev hev

theorem processSources_events_transfer (env : FsEnv)
    (tempPath destDir : String) (groups : List (String × List String))
    (ev : Event) (hev : ev ∈ (processSources env tempPath destDir groups).1) :
    ∃ s d b, ev = Event.transfer s d b := by
  induction groups with
  | nil => simp [processSources] at hev
  | cons g rest ih =>
    rw [processSources] at hev
    cases hr : (processDests env tempPath destDir g.1 g.2).2.2 <;>
      rw [hr] at hev <;> simp at hev
    · rcases hev with hev | hev
      · exact processDests_events_transfer env tempPath destDir g.1 g.2 ev hev
      · exact ih hev
    · exact processDests_events_transfer env tempPath destDir g.1 g.2 ev hev

/-- C2: in the copy stage, (1) when every transfer succeeds the events
are exactly the grouped-by-source plan in which, for every source, all
destinations but the last are copies and the last is a rename/move;
(2) a rename failing with a permission error falls back to a copy;
(3) a missing source is recorded in `missingFiles` (once per attempted
destination) without failing the stage; (4) a source all of whose
transfers fail with `ENOENT` only contributes `missingFiles` entries and
the remaining sources are still processed; and (5) on a non-failed stage
the warning naming the archive is shown if and only if `missingFiles` is
non-empty. -/
theorem extractArchive_copy_stage :
    (∀ (env : FsEnv) (archiveName tempPath destDir : String)
        (copies : List IInstruction),
      (∀ s d b, transferFile env s d b = TRes.ok) →
      extractArchive env archiveName tempPath destDir copies
        = (specTransferPlan tempPath destDir (groupCopies copies), [], none))
    ∧ (∀ (env : FsEnv) (srcRel sourcePath destPath : String),
        transferFile env sourcePath destPath true = TRes.eperm →
        transferFile env sourcePath destPath false = TRes.ok →
        transferWithCatch env srcRel sourcePath destPath true
          = ([Event.transfer sourcePath destPath false], [], none))
    ∧ (∀ (env : FsEnv) (srcRel sourcePath destPath : String) (move : Bool),
        transferFile env sourcePath destPath move = TRes.enoent →
        transferWithCatch env srcRel sourcePath destPath move
          = ([], [srcRel], none))
    ∧ (∀ (env : FsEnv) (tempPath destDir src : String)
        (dests : List String) (rest : List (String × List String)),
        (∀ d b, transferFile env (pjoin tempPath src) d b = TRes.enoent) →
        processSources env tempPath destDir ((src, dests) :: rest)
          = ((processSources env tempPath destDir rest).1,
             (dests.map fun _ => src)
               ++ (processSources env tempPath destDir rest).2.1,
             (processSources env tempPath destDir rest).2.2))
    ∧ (∀ (env : FsEnv) (archiveName tempPath destDir : String)
        (copies : List IInstruction),
        (extractArchive env archiveName tempPath destDir copies).2.2 = none →
        (Event.missingWarn archiveName
            ∈ (extractArchive env archiveName tempPath destDir copies).1
          ↔ (extractArchive env archiveName tempPath destDir copies).2.1 ≠ [])) := by
  refine ⟨?_, ?_, ?_, ?_, ?_⟩
  · intro env archiveName tempPath destDir copies h
    rw [extractArchive, processSources_allok env tempPath destDir h]
    simp
  · intro env srcRel sourcePath destPath h1 h2
    simp [transferWithCatch, h1, h2]
  · intro env srcRel sourcePath destPath move h1
    simp [transferWithCatch, h1]
  · intro env tempPath destDir src dests rest h
    rw [processSources, processDests_missing env tempPath destDir src h dests]
    simp
  · intro env archiveName tempPath destDir copies herr
    rcases hps : processSources env tempPath destDir (groupCopies copies)
      with ⟨evs, missing, err⟩
    have hwarn : Event.missingWarn archiveName ∉ evs := by
      intro hmem
      obtain ⟨s, d, b, habs⟩ :=
        processSources_events_transfer env tempPath destDir (groupCopies copies)
          _ (by rw [hps]; exact hmem)
      cases habs
    rw [extractArchive, hps] at herr ⊢
    cases err with
    | some e => simp at herr
    | none =>
      by_cases hm : missing = []
      · simp [hm, hwarn]
      · simp [hm, hwarn]

/-- Witness for C2: conjunct (1) at `c2Copies` on `fsOk` (source `a` has
two destinations: a copy then a move; source `b` one destination: a
move); conjunct (2) on `fsPerm`; conjuncts (3)-(5) on `fsMissing`. -/
theorem extractArchive_copy_stage_witness :
    extractArchive fsOk "arc" "t" "d" c2Copies
      = ([Event.transfer "t/a" "d/x" false, Event.transfer "t/a" "d/y" true,
          Event.transfer "t/b" "d/z" true], [], none)
    ∧ transferWithCatch fsPerm "a" "t/a" "d/x" true
      = ([Event.transfer "t/a" "d/x" false], [], none)
    ∧ transferWithCatch fsMissing "a" "t/a" "d/x" true = ([], ["a"], none)
    ∧ processSources fsMissing "t" "d" [("a", ["x", "y"])]
      = ([], ["a", "a"], none)
    ∧ (Event.missingWarn "arc"
        ∈ (extractArchive fsMissing "arc" "t" "d" c2Copies).1
      ↔ (extractArchive fsMissing "arc" "t" "d" c2Copies).2.1 ≠ []) := by
  refine ⟨?_, ?_, ?_, ?_, ?_⟩
  · rw [extractArchive_copy_stage.1 fsOk "arc" "t" "d" c2Copies
      (by intro s d b; cases b <;> rfl)]
    rfl
  · exact extractArchive_copy_stage.2.1 fsPerm "a" "t/a" "d/x" rfl rfl
  · exact extractArchive_copy_stage.2.2.1 fsMissing "a" "t/a" "d/x" true rfl
  · rw [extractArchive_copy_stage.2.2.2.1 fsMissing "t" "d" "a" ["x", "y"] []
      (by intro d b; cases b <;> rfl)]
    rfl
  · exact extractArchive_copy_stage.2.2.2.2 fsMissing "arc" "t" "d" c2Copies rfl

/-- C3 counterexample: an instruction list with a non-empty error group,
none of which is fatal, but containing a `copy` whose destination escapes
the staging root: `processInstructions` rejects with
`ProcessCanceled('Invalid installer instructions')` during validation
(`InstallManager.ts:915-935`) and the non-reportable
`'Installer reported errors'` notification is never shown, so processing
does not continue — contradicting the claim's second half. -/
theorem processInstructions_nonfatal_counterexample :
    (transformInstructions c3Instrs).error
      = [{ type := .errorT, value := some "warning", source := some "problem" }]
    ∧ (processInstructions fsOk "arc" "t" "d" (TsList.val c3Instrs)).2
      = some (PErr.processCanceled "Invalid installer instructions")
    ∧ Event.errorNotice false
      ∉ (processInstructions fsOk "arc" "t" "d" (TsList.val c3Instrs)).1 :=
  ⟨by decide, by decide, by decide⟩

/-- C3 (amended): for every instruction list whose error group is
non-empty, (a) if some error instruction has value `"fatal"`,
`processInstructions` rejects with a `ProcessCanceled` before any mkdir,
copy, generatefile, iniedit, submodule, attribute, setmodtype or rule
instruction is executed; (b) if no error instruction is fatal **and the
list passes destination validation**, the non-reportable
`'Installer reported errors'` notification is shown and processing
continues normally with the grouped execution stages. -/
theorem processInstructions_error_policy (env : FsEnv)
    (archiveName tempPath destDir : String) (instrs : List IInstruction)
    (hne : (transformInstructions instrs).error ≠ []) :
    ((∃ e ∈ (transformInstructions instrs).error, e.value = some "fatal") →
      (∃ msg, (processInstructions env archiveName tempPath destDir
          (TsList.val instrs)).2 = some (PErr.processCanceled msg))
      ∧ ∀ ev ∈ (processInstructions env archiveName tempPath destDir
          (TsList.val instrs)).1, isExecEvent ev = false)
    ∧ ((∀ e ∈ (transformInstructions instrs).error, e.value ≠ some "fatal") →
        validateInstructions instrs = [] →
        processInstructions env archiveName tempPath destDir (TsList.val instrs)
          = (Event.errorNotice false
              :: (execGroups env archiveName tempPath destDir
                    (transformInstructions instrs)).1,
             (execGroups env archiveName tempPath destDir
                (transformInstructions instrs)).2)) := by
  have hinstrs : instrs ≠ [] := by
    rintro rfl
    exact hne rfl
  constructor
  · intro hfatal
    by_cases hv : validateInstructions instrs = []
    · have hfind : ((transformInstructions instrs).error.find? fun err =>
          err.value = some "fatal").isSome = true := by
        rw [List.find?_isSome]
        obtain ⟨e, hmem, hval⟩ := hfatal
        exact ⟨e, hmem, by simp [hval]⟩
      rcases hsome : (transformInstructions instrs).error.find? fun err =>
          err.value = some "fatal" with _ | e
      · rw [hsome] at hfind
        simp at hfind
      · have hres : processInstructions env archiveName tempPath destDir
            (TsList.val instrs)
            = ([Event.errorNotice true],
               some (PErr.processCanceled "Installer script failed")) := by
          simp [processInstructions, hinstrs, hv, hne, hsome]
        rw [hres]
        exact ⟨⟨"Installer script failed", rfl⟩, by simp [isExecEvent]⟩
    · have hres : processInstructions env archiveName tempPath destDir
          (TsList.val instrs)
          = ([Event.invalidNotice],
             some (PErr.processCanceled "Invalid installer instructions")) := by
        simp [processInstructions, hinstrs, hv]
      rw [hres]
      exact ⟨⟨"Invalid installer instructions", rfl⟩, by simp [isExecEvent]⟩
  · intro hnofatal hv
    have hfind : ((transformInstructions instrs).error.find? fun err =>
        err.value = some "fatal") = none := by
      rw [List.find?_eq_none]
      intro e hmem
      simp [hnofatal e hmem]
    simp [processInstructions, hinstrs, hv, hne, hfind]

/-- Witness for C3 (amended): on `c3GoodInstrs` (a non-fatal error
instruction plus a valid copy) the notification is shown and the
execution stages run; and part (a) applied to a fatal variant. -/
theorem processInstructions_error_policy_witness :
    processInstructions fsOk "arc" "t" "d" (TsList.val c3GoodInstrs)
      = (Event.errorNotice false
          :: (execGroups fsOk "arc" "t" "d" (transformInstructions c3GoodInstrs)).1,
         (execGroups fsOk "arc" "t" "d" (transformInstructions c3GoodInstrs)).2)
    ∧ (∃ msg, (processInstructions fsOk "arc" "t" "d"
        (TsList.val [{ type := .errorT, value := some "fatal", source := some "p" }])).2
        = some (PErr.processCanceled msg)) :=
  ⟨(processInstructions_error_policy fsOk "arc" "t" "d" c3GoodInstrs
      (by decide)).2 (by decide) (by decide),
   ((processInstructions_error_policy fsOk "arc" "t" "d"
      [{ type := .errorT, value := some "fatal", source := some "p" }]
      (by decide)).1
      ⟨{ type := .errorT, value := some "fatal", source := some "p" },
       by decide, by decide⟩).1⟩

theorem getInstaller_eq_find? (installers : List IModInstaller)
    (fileList : List String) (gameId : String) (offset : Nat) :
    getInstaller installers fileList gameId offset
      = ((installers.drop offset).find? fun i =>
            (i.testSupported fileList gameId).supported).map
          fun i => ⟨i, (i.testSupported fileList gameId).requiredFiles⟩ := by
  generalize hn : installers.length - offset = n
  induction n generalizing offset with
  | zero =>
    have hle : installers.length ≤ offset := by omega
    rw [getInstaller, dif_pos hle, List.drop_eq_nil_of_le hle]
    rfl
  | succ n ih =>
    have hlt : offset < installers.length := by omega
    rw [getInstaller, dif_neg (show ¬ installers.length ≤ offset by omega)]
    rw [List.drop_eq_getElem_cons hlt]
    cases hsup : ((installers.get ⟨offset, hlt⟩).testSupported fileList gameId).supported with
    | true =>
      rw [if_pos hsup]
      have hsup2 : (installers[offset].testSupported fileList gameId).supported
          = true := hsup
      have hfind : List.find? (fun i => (i.testSupported fileList gameId).supported)
          (installers[offset] :: List.drop (offset + 1) installers)
          = some installers[offset] := List.find?_cons_of_pos _ hsup2
      rw [hfind]
      rfl
    | false =>
      have hsupn : ¬ ((installers.get ⟨offset, hlt⟩).testSupported
          fileList gameId).supported = true := by
        rw [hsup]
        simp
      rw [if_neg hsupn, ih (offset + 1) (by omega)]
      have hsup2 : ¬ (installers[offset].testSupported fileList gameId).supported
          = true := hsupn
      have hfind : List.find? (fun i => (i.testSupported fileList gameId).supported)
          (installers[offset] :: List.drop (offset + 1) installers)
          = List.find? (fun i => (i.testSupported fileList gameId).supported)
            (List.drop (offset + 1) installers) :=
        List.find?_cons_of_neg _ hsup2
      rw [hfind]

theorem mem_insertInstaller {x a : IModInstaller} {l : List IModInstaller} :
    a ∈ insertInstaller x l ↔ a = x ∨ a ∈ l := by
  induction l with
  | nil => simp [insertInstaller]
  | cons y ys ih =>
    rw [insertInstaller]
    by_cases h : y.priority ≤ x.priority
    · rw [if_pos h]
      simp [ih]
      tauto
    · rw [if_neg h]
      simp

theorem insertInstaller_pairwise {x : IModInstaller} {l : List IModInstaller}
    (h : l.Pairwise fun a b => a.priority ≤ b.priority) :
    (insertInstaller x l).Pairwise fun a b => a.priority ≤ b.priority := by
  induction l with
  | nil => simp [insertInstaller]
  | cons y ys ih =>
    rw [List.pairwise_cons] at h
    rw [insertInstaller]
    by_cases hxy : y.priority ≤ x.priority
    · rw [if_pos hxy]
      rw [List.pairwise_cons]
      refine ⟨?_, ih h.2⟩
      intro a ha
      rcases mem_insertInstaller.mp ha with rfl | ha
      · exact hxy
      · exact h.1 a ha
    · rw [if_neg hxy]
      rw [List.pairwise_cons]
      refine ⟨?_, List.pairwise_cons.mpr h⟩
      intro a ha
      rcases List.mem_cons.mp ha with rfl | ha
      · omega
      · have := h.1 a ha
        omega

theorem sortInstallers_pairwise (l : List IModInstaller) :
    (sortInstallers l).Pairwise fun a b => a.priority ≤ b.priority := by
  suffices h : ∀ (l acc : List IModInstaller),
      (acc.Pairwise fun a b => a.priority ≤ b.priority) →
      ((l.foldl (fun acc x => insertInstaller x acc) acc).Pairwise
        fun a b => a.priority ≤ b.priority) by
    exact h l [] (by simp)
  intro l
  induction l with
  | nil => intro acc h; simpa using h
  | cons x xs ih =>
    intro acc h
    rw [List.foldl_cons]
    exact ih (insertInstaller x acc) (insertInstaller_pairwise h)

theorem insertInstaller_append {x : IModInstaller} {l : List IModInstaller}
    (h : ∀ y ∈ l, y.priority ≤ x.priority) :
    insertInstaller x l = l ++ [x] := by
  induction l with
  | nil => rfl
  | cons y ys ih =>
    rw [insertInstaller, if_pos (h y (List.mem_cons_self y ys)),
      ih fun z hz => h z (List.mem_cons_of_mem y hz)]
    rfl

theorem sortInstallers_of_sorted {l : List IModInstaller}
    (h : l.Pairwise fun a b => a.priority ≤ b.priority) :
    sortInstallers l = l := by
  suffices key : ∀ (l acc : List IModInstaller),
      ((acc ++ l).Pairwise fun a b => a.priority ≤ b.priority) →
      l.foldl (fun acc x => insertInstaller x acc) acc = acc ++ l by
    simpa using key l [] (by simpa using h)
  intro l
  induction l with
  | nil => intro acc _; simp
  | cons x xs ih =>
    intro acc hsort
    rw [List.foldl_cons]
    have hx : ∀ y ∈ acc, y.priority ≤ x.priority := by
      intro y hy
      have := (List.pairwise_append.mp hsort).2.2 y hy x (List.mem_cons_self x xs)
      exact this
    rw [insertInstaller_append hx, ih (acc ++ [x]) (by simpa using hsort)]
    simp

theorem addInstaller_of_sorted {installers : List IModInstaller}
    (h : installers.Pairwise fun a b => a.priority ≤ b.priority)
    (x : IModInstaller) :
    addInstaller installers x.priority x.testSupported x.installTag
      = insertInstaller x installers := by
  rw [addInstaller, sortInstallers, List.foldl_append]
  rw [show (List.foldl (fun acc x => insertInstaller x acc) [] installers)
      = sortInstallers installers from rfl]
  rw [sortInstallers_of_sorted h]
  rfl

theorem filter_insertInstaller (p : Int) (x : IModInstaller)
    (l : List IModInstaller)
    (h : l.Pairwise fun a b => a.priority ≤ b.priority) :
    (insertInstaller x l).filter (fun e => e.priority = p)
      = l.filter (fun e => e.priority = p)
        ++ (if x.priority = p then [x] else []) := by
  induction l with
  | nil =>
    rw [insertInstaller]
    by_cases hx : x.priority = p
    · simp [hx]
    · simp [hx]
  | cons y ys ih =>
    rw [List.pairwise_cons] at h
    rw [insertInstaller]
    by_cases hxy : y.priority ≤ x.priority
    · rw [if_pos hxy]
      by_cases hy : y.priority = p
      · rw [List.filter_cons_of_pos (by simp [hy]),
          List.filter_cons_of_pos (by simp [hy]), ih h.2]
        simp
      · rw [List.filter_cons_of_neg (by simp [hy]),
          List.filter_cons_of_neg (by simp [hy]), ih h.2]
    · rw [if_neg hxy]
      by_cases hx : x.priority = p
      · have hnone : (y :: ys).filter (fun e => e.priority = p) = [] := by
          rw [List.filter_eq_nil_iff]
          intro a ha
          rcases List.mem_cons.mp ha with rfl | ha
          · simp
            omega
          · have := h.1 a ha
            simp
            omega
        rw [List.filter_cons_of_pos (by simp [hx]), hnone]
        simp [hx]
      · rw [List.filter_cons_of_neg (by simp [hx])]
        simp [hx]

theorem registryOf_invariant (regs : List IModInstaller) :
    ∀ acc : List IModInstaller,
      (acc.Pairwise fun a b => a.priority ≤ b.priority) →
      ((regs.foldl (fun acc i =>
          addInstaller acc i.priority i.testSupported i.installTag) acc).Pairwise
        fun a b => a.priority ≤ b.priority)
      ∧ ∀ p : Int,
          (regs.foldl (fun acc i =>
              addInstaller acc i.priority i.testSupported i.installTag) acc).filter
            (fun e => e.priority = p)
          = acc.filter (fun e => e.priority = p)
            ++ regs.filter (fun e => e.priority = p) := by
  induction regs with
  | nil =>
    intro acc h
    exact ⟨h, by simp⟩
  | cons r rs ih =>
    intro acc h
    rw [List.foldl_cons, addInstaller_of_sorted h r]
    obtain ⟨ihs, ihf⟩ := ih (insertInstaller r acc) (insertInstaller_pairwise h)
    refine ⟨ihs, ?_⟩
    intro p
    rw [ihf p, filter_insertInstaller p r acc h]
    by_cases hr : r.priority = p
    · rw [List.filter_cons_of_pos (by simp [hr])]
      simp [hr]
    · rw [List.filter_cons_of_neg (by simp [hr])]
      simp [hr]

/-- C7: (1) the registry built by `addInstaller` is sorted ascending by
priority; (2) the sort is stable — filtering the registry at any
priority returns those registrations in registration order; (3)
`getInstaller` returns the first installer in list order whose
`testSupported` yields `supported = true`; (4) with registrations
`(p=10,A), (p=0,B), (p=5,C)` all matching, installer `B` is selected. -/
theorem installer_registry_order :
    (∀ regs : List IModInstaller,
        (registryOf regs).Pairwise fun a b => a.priority ≤ b.priority)
    ∧ (∀ (regs : List IModInstaller) (p : Int),
        (registryOf regs).filter (fun e => e.priority = p)
          = regs.filter (fun e => e.priority = p))
    ∧ (∀ (installers : List IModInstaller) (fileList : List String)
        (gameId : String),
        getInstaller installers fileList gameId 0
          = (installers.find? fun i =>
                (i.testSupported fileList gameId).supported).map
              fun i => ⟨i, (i.testSupported fileList gameId).requiredFiles⟩)
    ∧ (getInstaller (registryOf c7Regs) ["f"] "g" 0).map
        (fun si => si.installer.installTag) = some "B" := by
  refine ⟨?_, ?_, ?_, ?_⟩
  · intro regs
    exact (registryOf_invariant regs [] (by simp)).1
  · intro regs p
    have := (registryOf_invariant regs [] (by simp)).2 p
    simpa [registryOf] using this
  · intro installers fileList gameId
    simpa using getInstaller_eq_find? installers fileList gameId 0
  · rw [getInstaller_eq_find? (registryOf c7Regs) ["f"] "g" 0]
    rfl

/-- C5 counterexample: with no registered installers and no explicit file
list, the selection stage fails with the plain
`Error('no installer supporting this file')`
(`InstallManager.ts:638-639`), which is **not** a `SetupError` — the
generic catch handler (`InstallManager.ts:444-472`) reports it as an
unknown error. -/
theorem noInstaller_counterexample :
    selectInstaller none ([] : List IModInstaller) ["a.txt"] "game"
      = Except.error (VErr.plainError "no installer supporting this file")
    ∧ isSetupErr (VErr.plainError "no installer supporting this file") = false := by
  constructor
  · rw [selectInstaller, getInstaller_eq_find? [] ["a.txt"] "game" 0]
    rfl
  · rfl

/-- C5 (amended): when no explicit file list is supplied and no
registered installer's `testSupported` returns `supported = true`, the
pipeline fails with the plain `Error('no installer supporting this
file')` (handled by the generic, reportable path), not with a
`SetupError`. -/
theorem noInstaller_plain_error (installers : List IModInstaller)
    (fileList : List String) (gameId : String)
    (h : ∀ i ∈ installers, (i.testSupported fileList gameId).supported = false) :
    selectInstaller none installers fileList gameId
      = Except.error (VErr.plainError "no installer supporting this file")
    ∧ ∀ msg, VErr.plainError "no installer supporting this file"
        ≠ VErr.setupError msg := by
  constructor
  · have hfind : (installers.find? fun i =>
        (i.testSupported fileList gameId).supported) = none := by
      rw [List.find?_eq_none]
      intro i hi
      simp [h i hi]
    rw [selectInstaller, getInstaller_eq_find? installers fileList gameId 0,
      List.drop_zero, hfind]
    rfl
  · intro msg heq
    cases heq

/-- Witness for C5 (amended): a single registered installer that rejects
every file list. -/
theorem noInstaller_plain_error_witness :
    selectInstaller none [⟨5, fun _ _ => ⟨false, []⟩, "reject"⟩] ["a.txt"] "game"
      = Except.error (VErr.plainError "no installer supporting this file") :=
  (noInstaller_plain_error [⟨5, fun _ _ => ⟨false, []⟩, "reject"⟩] ["a.txt"] "game"
    (by intro i hi; rcases List.mem_singleton.mp hi with rfl; rfl)).1

theorem installDependency_of_ne_uc (env : DepEnv) (dep : IDependency)
    (h : env.outcome dep ≠ DepOutcome.err DepErr.userCanceled) :
    installDependency env dep
      = (depEvents env dep, Except.ok (depResult env dep)) := by
  rcases ho : env.outcome dep with mid | e
  · simp [installDependency, depEvents, depResult, ho]
  · cases e with
    | processCanceled ar => simp [installDependency, depEvents, depResult, ho]
    | notFound => simp [installDependency, depEvents, depResult, ho]
    | userCanceled => exact absurd ho h
    | otherErr => simp [installDependency, depEvents, depResult, ho]

theorem depBatch_no_uc (env : DepEnv) (deps : List IDependency)
    (h : ∀ d ∈ deps, env.outcome d ≠ DepOutcome.err DepErr.userCanceled) :
    depBatch env deps
      = (deps.flatMap (depEvents env), some (deps.map (depResult env))) := by
  induction deps with
  | nil => rfl
  | cons d rest ih =>
    rw [depBatch, installDependency_of_ne_uc env d (h d (List.mem_cons_self d rest)),
      ih fun x hx => h x (List.mem_cons_of_mem d hx)]
    simp

theorem depBatch_uc (env : DepEnv) (deps : List IDependency)
    (h : ∃ d ∈ deps, env.outcome d = DepOutcome.err DepErr.userCanceled) :
    (depBatch env deps).2 = none := by
  induction deps with
  | nil => simp at h
  | cons d rest ih =>
    by_cases hd : env.outcome d = DepOutcome.err DepErr.userCanceled
    · rw [depBatch]
      simp [installDependency, hd]
    · have hrest : ∃ x ∈ rest,
          env.outcome x = DepOutcome.err DepErr.userCanceled := by
        obtain ⟨x, hx, ho⟩ := h
        rcases List.mem_cons.mp hx with rfl | hx'
        · exact absurd ho hd
        · exact ⟨x, hx', ho⟩
      rw [depBatch, installDependency_of_ne_uc env d hd]
      rcases hb : depBatch env rest with ⟨evs, r⟩
      have := ih hrest
      rw [hb] at this
      simp at this
      simp [this]

theorem updateRules_isSome (l : List IDependency)
    (h : ∀ d ∈ l, d.mod.isSome = true) : (updateRules l).isSome = true := by
  induction l with
  | nil => rfl
  | cons d rest ih =>
    rcases hm : d.mod with _ | m
    · have := h d (List.mem_cons_self d rest)
      rw [hm] at this
      simp at this
    · have hrest := ih fun x hx => h x (List.mem_cons_of_mem d hx)
      rcases hr : updateRules rest with _ | l'
      · rw [hr] at hrest
        simp at hrest
      · have hstep : updateRules (d :: rest)
            = (match d.mod, updateRules rest with
               | some m, some l => some ((d.reference, m.id) :: l)
               | _, _ => none) := rfl
        rw [hstep, hm, hr]
        rfl

/-- C9 counterexample: a dependency failing with a `ProcessCanceled`
whose `extraInfo.alreadyReported` flag is set is dropped **silently**
(`InstallManager.ts:1235-1238`): no notification is shown at all,
contradicting the claim that every `ProcessCanceled` is reported as a
non-reportable notification. -/
theorem dependency_policy_counterexample :
    c9Env.outcome c9Dep = DepOutcome.err (DepErr.processCanceled true)
    ∧ doInstallDependencies c9Env [c9Dep] = ([], []) :=
  ⟨rfl, rfl⟩

/-- C9 (amended): in `doInstallDependencies`, a `UserCanceled` from any
dependency aborts the whole batch, which resolves to the empty list;
when no dependency raises `UserCanceled`, each dependency contributes
exactly the events of the per-dependency policy — success enables the
mod; `ProcessCanceled` yields a non-reportable notification unless
flagged `alreadyReported` (then nothing); `NotFound` yields a
non-reportable notification; any other error yields a reportable
notification — and only the failed dependencies are dropped, the rest of
the batch continuing. -/
theorem doInstallDependencies_error_policy (env : DepEnv)
    (deps : List IDependency) :
    ((∃ d ∈ deps, env.outcome d = DepOutcome.err DepErr.userCanceled) →
      (doInstallDependencies env deps).2 = [])
    ∧ ((∀ d ∈ deps, env.outcome d ≠ DepOutcome.err DepErr.userCanceled) →
        doInstallDependencies env deps
          = (deps.flatMap (depEvents env), deps.filterMap (depResult env))) := by
  constructor
  · intro h
    have := depBatch_uc env deps h
    rw [doInstallDependencies]
    rcases hb : depBatch env deps with ⟨evs, r⟩
    rw [hb] at this
    simp at this
    simp [this]
  · intro h
    rw [doInstallDependencies, depBatch_no_uc env deps h]
    simp [List.filterMap_map]

/-- Witness for C9 (amended): a `UserCanceled` batch resolves empty; a
mixed batch (install / not-found / other) keeps only the installed
dependency while showing the two failure notifications. -/
theorem doInstallDependencies_error_policy_witness :
    (doInstallDependencies c9UcEnv [c9Dep]).2 = []
    ∧ doInstallDependencies c9MixEnv c9Deps
      = (c9Deps.flatMap (depEvents c9MixEnv),
         c9Deps.filterMap (depResult c9MixEnv)) :=
  ⟨(doInstallDependencies_error_policy c9UcEnv [c9Dep]).1
      ⟨c9Dep, List.mem_singleton.mpr rfl, rfl⟩,
   (doInstallDependencies_error_policy c9MixEnv c9Deps).2 (by decide)⟩

/-- C10: every element of the list resolved by `doInstallDependencies`
is a dependency whose chain completed with `ok` and whose `mod` field is
set to the installed mod looked up in the store; failed dependencies
resolve to `undefined` and are filtered out, so `updateRules` (which
dereferences `dep.mod.id`) never fails on the resolved list. -/
theorem doInstallDependencies_resolved (env : DepEnv)
    (deps : List IDependency) :
    (∀ d ∈ (doInstallDependencies env deps).2,
        d.mod.isSome = true
        ∧ ∃ d0 ∈ deps, ∃ mid, env.outcome d0 = DepOutcome.ok mid
            ∧ d = { d0 with mod := some (env.modOf mid) })
    ∧ (updateRules (doInstallDependencies env deps).2).isSome = true := by
  have hmem : ∀ d ∈ (doInstallDependencies env deps).2,
      d.mod.isSome = true
      ∧ ∃ d0 ∈ deps, ∃ mid, env.outcome d0 = DepOutcome.ok mid
          ∧ d = { d0 with mod := some (env.modOf mid) } := by
    by_cases huc : ∃ d ∈ deps, env.outcome d = DepOutcome.err DepErr.userCanceled
    · have h2 : (doInstallDependencies env deps).2 = [] := by
        have := depBatch_uc env deps huc
        rw [doInstallDependencies]
        rcases hb : depBatch env deps with ⟨evs, r⟩
        rw [hb] at this
        simp at this
        simp [this]
      rw [h2]
      intro d hd
      simp at hd
    · push_neg at huc
      have h2 : (doInstallDependencies env deps).2
          = deps.filterMap (depResult env) := by
        rw [doInstallDependencies, depBatch_no_uc env deps huc]
        simp [List.filterMap_map]
      rw [h2]
      intro d hd
      rw [List.mem_filterMap] at hd
      obtain ⟨d0, hd0, hres⟩ := hd
      rcases ho : env.outcome d0 with mid | e
      · rw [depResult, ho] at hres
        simp at hres
        subst hres
        exact ⟨rfl, d0, hd0, mid, ho, rfl⟩
      · rw [depResult, ho] at hres
        cases e <;> simp at hres
  exact ⟨hmem, updateRules_isSome _ fun d hd => (hmem d hd).1⟩

/-- Witness for C10: a single dependency installing as `m1` resolves to
a list whose element carries `mod = m1`, on which `updateRules`
succeeds. -/
theorem doInstallDependencies_resolved_witness :
    ({ reference := "r", mod := some ⟨"m1"⟩ } : IDependency).mod.isSome = true
    ∧ (updateRules (doInstallDependencies c10Env [c10Dep]).2).isSome = true :=
  ⟨((doInstallDependencies_resolved c10Env [c10Dep]).1
      { reference := "r", mod := some ⟨"m1"⟩ } (by decide)).1,
   (doInstallDependencies_resolved c10Env [c10Dep]).2⟩

end Vortex
